import Mathlib

/-!
# Verification of the electron-simple-publisher publish pipeline

A shallow embedding of the publish pipeline of the repository:
* `src/lib/transport/abstract.js` — the `AbstractTransport` class
  (`updateUpdatesJson`, `fetchUpdatesJson`, `getBuildId`, `normalizeFileName`)
  together with the publish command module concatenated in the same source
  file (`publishAssets`, `publish`, `onProgress`, `formatSize`);
* `src/lib/utils/normalize-options.js` — `normalizeBuild` and
  `validateIfRemoveCommand`.

JavaScript objects used as string-keyed dictionaries are modelled as
association lists (`List (String × α)`); JS property read, write and
`delete` become `lookupA`, `setA` and `delA`.  A JS value that may be
`undefined` is modelled as an `Option`; JS string truthiness ("" is falsy)
is made explicit at every use site.
-/

/-- Propositional equality of `Except` values is decidable componentwise
(needed to evaluate the fallible operations on concrete inputs). -/
instance {ε α : Type} [DecidableEq ε] [DecidableEq α] : DecidableEq (Except ε α) :=
  fun x y =>
    match x, y with
    | .error a, .error b =>
      if h : a = b then isTrue (by rw [h]) else isFalse (by simp [h])
    | .ok a, .ok b =>
      if h : a = b then isTrue (by rw [h]) else isFalse (by simp [h])
    | .error _, .ok _ => isFalse (by simp)
    | .ok _, .error _ => isFalse (by simp)

namespace SimplePublisher

/-! ## Association lists: JS object key access

JS objects have unique keys, so replace-first / delete-all formulations
below coincide with JS property semantics. -/

/-- JS property read `obj[k]`: first binding of key `k`, if any. -/
def lookupA {α : Type} : List (String × α) → String → Option α
  | [], _ => none
  | (k', v) :: rest, k => if k' = k then some v else lookupA rest k

/-- JS property write `obj[k] = v`: replace the binding in place, or append
a new binding at the end (JS insertion order). -/
def setA {α : Type} : List (String × α) → String → α → List (String × α)
  | [], k, v => [(k, v)]
  | (k', v') :: rest, k, v =>
    if k' = k then (k, v) :: rest else (k', v') :: setA rest k v

/-- JS `delete obj[k]`: remove the binding of key `k`. -/
def delA {α : Type} : List (String × α) → String → List (String × α)
  | [], _ => []
  | (k', v') :: rest, k =>
    if k' = k then delA rest k else (k', v') :: delA rest k

/-! ## Builds and build ids -/

/-- A build object as threaded through the pipeline: `platform`, `arch`,
`channel`, `version` plus the named asset mapping `assets`
(asset name → local file path). -/
structure Build where
  platform : String
  arch : String
  channel : String
  version : String
  assets : List (String × String)
deriving DecidableEq

/-- `AbstractTransport.getBuildId(build, includeVersion)`:
`platform-arch-channel` optionally extended with `-vVERSION`. -/
def getBuildId (build : Build) (includeVersion : Bool) : String :=
  String.intercalate "-"
    ([build.platform, build.arch, build.channel] ++
      if includeVersion then ["v" ++ build.version] else [])

/-! ## The manifest (`updates.json`) and `updateUpdatesJson` -/

/-- One per-build record of `updates.json`: its `version` field (absent =
JS `undefined`) and the remaining fields, kept opaque. -/
structure MRecord where
  version : Option String
  fields : List (String × String)
deriving DecidableEq

/-- A manifest value: `null` literally stored at a key, or a record. -/
inductive MVal where
  | nullv
  | record (r : MRecord)
deriving DecidableEq

/-- `updates.json` content: buildId-without-version → value. -/
abbrev Manifest := List (String × MVal)

/-- The `data` argument of `updateUpdatesJson`.  The JS dispatch is
`typeof data === 'object'`: `null` and records both satisfy it, every
other value (in particular `undefined`, the removal signal actually sent
by the remove command) takes the else branch, which never reads `data`. -/
inductive JSArg where
  | nonObject
  | nullv
  | record (r : MRecord)
deriving DecidableEq

/-- `AbstractTransport.updateUpdatesJson` (abstract.js lines 183-200), the
pure mutation between `fetchUpdatesJson` and `pushUpdatesJson`: given the
fetched manifest `json` it returns the manifest that is pushed.
`typeof data === 'object'` assigns `json[buildId] = data` (this includes
`data === null`); otherwise `json[buildId]` is deleted only when it is
truthy and its `version` field strictly equals `build.version`. -/
def updateUpdatesJson (json : Manifest) (build : Build) (data : JSArg) : Manifest :=
  let buildId := getBuildId build false
  match data with
  | .nullv => setA json buildId .nullv
  | .record r => setA json buildId (.record r)
  | .nonObject =>
    match lookupA json buildId with
    | some (.record r) =>
      if r.version = some build.version then delA json buildId else json
    | some .nullv => json
    | none => json

/-! ## File names -/

/-- Node `path.basename` (posix): ignore trailing separators, then take the
part after the last `/`. -/
def basename (s : String) : String :=
  String.mk (((s.data.reverse.dropWhile (fun c => c == '/')).takeWhile
    (fun c => c != '/')).reverse)

/-- The character class of the JS regexp `\s` (ECMAScript WhiteSpace and
LineTerminator characters). -/
def isJsSpace (c : Char) : Bool :=
  c == ' ' || c == '\t' || c == '\n' || c == '\x0b' || c == '\x0c' ||
  c == '\r' || c == '\u00A0' || c == '\u1680' ||
  ('\u2000' ≤ c && c ≤ '\u200A') || c == '\u2028' || c == '\u2029' ||
  c == '\u202F' || c == '\u205F' || c == '\u3000' || c == '\uFEFF'

/-- `AbstractTransport.normalizeFileName` (abstract.js lines 230-234):
`path.basename(fileName).replace(/\s/g, '-')` — each single whitespace
character is replaced by one hyphen. -/
def normalizeFileName (fileName : String) : String :=
  String.mk ((basename fileName).data.map (fun c => if isJsSpace c then '-' else c))

/-! ## The win32 branch of `publish` -/

/-- JS `String.prototype.replace` with a string pattern and empty
replacement: remove the first occurrence of `pat`, leave the string
unchanged when `pat` does not occur. -/
def replaceFirstL (pat : List Char) : List Char → List Char
  | [] => []
  | c :: rest =>
    if pat.isPrefixOf (c :: rest) then (c :: rest).drop pat.length
    else c :: replaceFirstL pat rest

/-- `s.replace(pat, '')` on strings. -/
def jsReplaceOnce (s pat : String) : String :=
  String.mk (replaceFirstL pat.data s.data)

/-- The asset-result object consumed by `publish` after `publishAssets`
(and the darwin step): the fields it reads, each possibly `undefined`. -/
structure AssetsResult where
  update : Option String
  install : Option String
  metaFile : Option String
  localUpdate : Option String
  localInstall : Option String
  localMetaFile : Option String
deriving DecidableEq

/-- The record `publish` builds for `updateUpdatesJson`:
`Object.assign({}, options.fields, {update, 'update-local', install,
'install-local', version})`.  `extra` carries the `options.fields`
entries (the fixed keys shadow them in JS; kept apart here). -/
structure PublishRecord where
  update : Option String
  updateLocal : Option String
  install : Option String
  installLocal : Option String
  version : String
  extra : List (String × String)
deriving DecidableEq

/-- The manifest-record construction of `publish` (abstract.js lines
375-390).  For `build.platform === 'win32'` the update fields are replaced
by `assets.metaFile.replace('/RELEASES', '')` (first occurrence) and
likewise for the local path; reading `.replace` of an absent `metaFile`
throws a TypeError in JS, modelled as `.error`. -/
def makePublishData (fields : List (String × String)) (build : Build)
    (assets : AssetsResult) : Except String PublishRecord :=
  let base : PublishRecord :=
    { update := assets.update
      updateLocal := assets.localUpdate
      install := assets.install
      installLocal := assets.localInstall
      version := build.version
      extra := fields }
  if build.platform = "win32" then
    match assets.metaFile, assets.localMetaFile with
    | some mf, some lmf =>
        .ok { base with
          update := some (jsReplaceOnce mf "/RELEASES")
          updateLocal := some (jsReplaceOnce lmf "/RELEASES") }
    | _, _ => .error "TypeError: cannot read property replace of undefined"
  else .ok base

/-! ## `fetchUpdatesJson` -/

/-- Outcome of the `http.get` call in `fetchUpdatesJson`: either the
request itself errs, or a response with a status code and body arrives. -/
inductive HttpOutcome where
  | fail (e : String)
  | resp (statusCode : Nat) (body : String)
deriving DecidableEq

/-- `AbstractTransport.fetchUpdatesJson` (abstract.js lines 151-175).
`JSON.parse` is external; it is abstracted by `parse` (`none` = throws).
A request error rejects; a non-200 response resolves `{}` with a warning;
an unparsable 200 body resolves `{}` with a warning. -/
def fetchUpdatesJson (parse : String → Option Manifest) (r : HttpOutcome) :
    Except String Manifest :=
  match r with
  | .fail e => .error e
  | .resp statusCode body =>
    if statusCode ≠ 200 then .ok []
    else
      match parse body with
      | some json => .ok json
      | none => .ok []

/-! ## `publishAssets`

The promise chain of `publishAssets` runs the assets strictly
sequentially, so it is a left fold over the asset list.  The abstract
`transport.uploadFile` is a parameter `upload : String → Option String`
(`none` models a transport resolving `undefined`).  Besides the JS-visible
state (`result`, `result.local`, the `uploaded` dedup cache) the state
records the calls made to `uploadFile` and to `duplicateMetaFiles`, so
that call-count properties can be stated. -/

/-- State accumulated by one `publishAssets` run. -/
structure PublishState where
  result : List (String × String)
  resultLocal : List (String × String)
  uploaded : List (String × String)
  uploadCalls : List String
  mirrorCalls : List String
deriving DecidableEq

/-- The state before the loop starts: `result = {local: {}}`,
`uploaded = {}`, no calls made. -/
def initPublishState : PublishState :=
  { result := [], resultLocal := [], uploaded := [], uploadCalls := [], mirrorCalls := [] }

/-- JS truthiness of the `fileUrl` value (`undefined` and `''` are falsy). -/
def jsTruthyUrl (u : Option String) : Bool :=
  match u with
  | some s => s ≠ ""
  | none => false

/-- JS `fileUrl || ''`: the string stored in the dedup cache. -/
def jsUrlString (u : Option String) : String :=
  match u with
  | some s => s
  | none => ""

/-- The body of the per-asset `.then` chain after `fileUrl` is known:
`duplicateMetaFiles(filePath, build)`, then — only when `fileUrl` is
truthy — `result[name] = fileUrl` and
`result.local[name] = [getBuildId(build), path.basename(fileUrl)].join('/')`,
finally `uploaded[filePath] = fileUrl || ''`. -/
def pubRecord (build : Build) (st : PublishState) (name filePath : String)
    (fileUrl : Option String) (uploadCalls : List String) : PublishState :=
  { result :=
      if jsTruthyUrl fileUrl then setA st.result name (jsUrlString fileUrl)
      else st.result
    resultLocal :=
      if jsTruthyUrl fileUrl then
        setA st.resultLocal name
          (getBuildId build true ++ "/" ++ basename (jsUrlString fileUrl))
      else st.resultLocal
    uploaded := setA st.uploaded filePath (jsUrlString fileUrl)
    uploadCalls := uploadCalls
    mirrorCalls := st.mirrorCalls ++ [filePath] }

/-- One iteration of the `for (let name in assets)` loop of
`publishAssets` (abstract.js lines 424-448): `uploadFile` is called only
when `uploaded[filePath] === undefined`, otherwise the cached value is
resolved. -/
def pubStep (upload : String → Option String) (build : Build)
    (st : PublishState) (asset : String × String) : PublishState :=
  match lookupA st.uploaded asset.2 with
  | some cached => pubRecord build st asset.1 asset.2 (some cached) st.uploadCalls
  | none =>
      pubRecord build st asset.1 asset.2 (upload asset.2)
        (st.uploadCalls ++ [asset.2])

/-- `publishAssets(build, transport)` (abstract.js lines 409-451).  With an
empty asset mapping it throws before the loop (second component `some`
error message, first component the untouched initial state, witnessing
that no upload or mirror call was made); otherwise it folds the loop body
over the assets and resolves the final result. -/
def publishAssets (upload : String → Option String) (build : Build) :
    PublishState × Option String :=
  if build.assets.isEmpty then
    (initPublishState,
      some ("There are no assets for build " ++ getBuildId build true ++
        ". Check the dist folder."))
  else (build.assets.foldl (pubStep upload build) initPublishState, none)

/-- Invariant of the dedup cache throughout the `publishAssets` loop: a
cached entry for a path holds `uploadFile(path) || ''` and the path has
been passed to `uploadFile` exactly once; an uncached path has never been
uploaded. -/
def CacheInv (upload : String → Option String) (st : PublishState) : Prop :=
  (∀ p c, lookupA st.uploaded p = some c →
      c = jsUrlString (upload p) ∧ st.uploadCalls.count p = 1)
  ∧ ∀ p, lookupA st.uploaded p = none → st.uploadCalls.count p = 0

/-! ## Progress reporting (`onProgress`, `formatSize`)

`onProgress` divides two JS numbers; with `total === 0` the quotient is
`NaN` (or `Infinity`), and `new Array(Math.floor(50 * value))` then throws
`RangeError: Invalid array length`.  The JS number values reachable here
(quotients of non-negative integers) are modelled exactly by `JSNum`. -/

/-- A JS number as reachable in `onProgress`: `NaN`, `Infinity`, or an
exact (non-negative) rational value. -/
inductive JSNum where
  | nan
  | inf
  | val (q : ℚ)
deriving DecidableEq

/-- JS division of two non-negative finite numbers: `0/0 = NaN`,
`x/0 = Infinity` for `x > 0`. -/
def jsDiv (a b : ℚ) : JSNum :=
  if b = 0 then (if a = 0 then JSNum.nan else JSNum.inf) else JSNum.val (a / b)

/-- Multiplication by a positive literal constant (`50 * value`,
`value * 100`): preserves `NaN` and `Infinity`. -/
def jsMulPos (c : ℚ) (n : JSNum) : JSNum :=
  match n with
  | .nan => .nan
  | .inf => .inf
  | .val q => .val (c * q)

/-- `Math.floor` on an exact rational (`⌊q⌋` written out on the reduced
numerator and denominator so the kernel can evaluate it; `/` on `ℤ` is
Euclidean division and the denominator is positive). -/
def ratFloor (q : ℚ) : ℤ :=
  q.num / (q.den : ℤ)

/-- `Math.round(q) = Math.floor(q + 1/2)` on an exact rational. -/
def jsRound (q : ℚ) : ℤ :=
  (2 * q.num + (q.den : ℤ)) / (2 * (q.den : ℤ))

/-- `Math.floor`: `NaN` and `Infinity` are propagated. -/
def jsFloorNum (n : JSNum) : JSNum :=
  match n with
  | .nan => .nan
  | .inf => .inf
  | .val q => .val ((ratFloor q : ℤ) : ℚ)

/-- `new Array(n)`: a valid array length is a non-negative integer;
`NaN` and `Infinity` throw `RangeError: Invalid array length`. -/
def jsNewArrayLen (n : JSNum) : Except String Nat :=
  match n with
  | .nan => .error "RangeError: Invalid array length"
  | .inf => .error "RangeError: Invalid array length"
  | .val q =>
    if 0 ≤ q ∧ q.den = 1 then .ok q.num.toNat
    else .error "RangeError: Invalid array length"

/-- `Math.round(value * 100)` as rendered into the progress line
(`Math.round(x) = Math.floor(x + 1/2)`; `NaN` renders as `"NaN"`). -/
def jsRoundTimes100 (n : JSNum) : String :=
  match n with
  | .nan => "NaN"
  | .inf => "Infinity"
  | .val q => toString (jsRound (q * 100))

/-- The progress event `{name, transferred, total}` (byte counts). -/
structure ProgressEvent where
  name : String
  transferred : Nat
  total : Nat
deriving DecidableEq

/-- `'BKMGTP'.charAt(e).replace('B', '') + 'B'` (`charAt` out of range
yields the empty string). -/
def sizeUnit (e : Nat) : String :=
  match "BKMGTP".data.get? e with
  | some c => (if c = 'B' then "" else String.mk [c]) ++ "B"
  | none => "B"

/-- `+(x.toFixed(2))` rendered from `hundredths = round(100 * x)`: print
`hundredths / 100` with trailing fractional zeros dropped.  (`toFixed`
rounds in binary floating point; the exact half-up rounding used here
agrees away from representation boundaries.) -/
def toFixedPlus2 (hundredths : Nat) : String :=
  let whole := hundredths / 100
  let frac := hundredths % 100
  if frac = 0 then toString whole
  else if frac % 10 = 0 then toString whole ++ "." ++ toString (frac / 10)
  else if frac < 10 then toString whole ++ ".0" ++ toString frac
  else toString whole ++ "." ++ toString frac

/-- The base-1024 floor logarithm, structurally recursive on a fuel bound
(`logFloorAux b b` suffices since each step divides by 1024). -/
def logFloorAux : Nat → Nat → Nat
  | 0, _ => 0
  | fuel + 1, b => if b < 1024 then 0 else 1 + logFloorAux fuel (b / 1024)

/-- `Math.floor(Math.log(bytes) / Math.log(1024))` for a positive integer
byte count: the base-1024 floor logarithm (exact away from floating-point
boundaries). -/
def sizeExp (bytes : Nat) : Nat :=
  logFloorAux bytes bytes

/-- `formatSize` (abstract.js lines 495-500): `0` short-circuits to
`"0 B"`; otherwise the 1024-based exponent scales the value. -/
def formatSize (bytes : Nat) : String :=
  if bytes = 0 then "0 B"
  else
    let e := sizeExp bytes
    let p := 1024 ^ e
    toFixedPlus2 ((200 * bytes + p) / (2 * p)) ++ " " ++ sizeUnit e

/-- `onProgress` (abstract.js lines 477-493).  `value =
transferred/total`; `new Array(Math.floor(50 * value)).join('█')` builds a
bar of `len - 1` full cells which the while loop pads with dots to 49
characters; with `total === 0` the array construction throws, modelled as
`.error`. -/
def onProgress (p : ProgressEvent) : Except String String :=
  let value := jsDiv (p.transferred : ℚ) (p.total : ℚ)
  let percentage := jsRoundTimes100 value
  match jsNewArrayLen (jsFloorNum (jsMulPos 50 value)) with
  | .error e => .error e
  | .ok len =>
    let bar := List.replicate (len - 1) '█' ++
      List.replicate (49 - (len - 1)) '.'
    let size := formatSize p.transferred ++ " / " ++ formatSize p.total
    .ok ("\nUploading " ++ p.name ++ "\n[" ++ String.mk bar ++ "] " ++
      percentage ++ "% (" ++ size ++ ")\n")

/-! ## `normalize-options.js`: `normalizeBuild` and `validateIfRemoveCommand` -/

/-- A build object inside `options.builds` before/after `normalizeBuild`:
each field may be `undefined` (`none`) or any string (JS `""` is falsy). -/
structure RawBuild where
  platform : Option String
  arch : Option String
  channel : Option String
  version : Option String
deriving DecidableEq

/-- `normalizeBuild` accepts either a `platform-arch-channel-version`
string or a build object. -/
inductive BuildInput where
  | str (s : String)
  | obj (b : RawBuild)
deriving DecidableEq

/-- The slice of the shared `options` object read by `normalizeBuild`. -/
structure NOptions where
  command : String
  platform : Option String
  arch : Option String
  channel : Option String
  version : Option String
deriving DecidableEq

/-- JS truthiness of a possibly-undefined string field. -/
def jsTruthyOpt (v : Option String) : Bool :=
  match v with
  | some s => s ≠ ""
  | none => false

/-- `build.split('-')` destructured into four components (components
beyond the split length are `undefined`). -/
def parseBuildStr (s : String) : RawBuild :=
  let parts := s.splitOn "-"
  { platform := parts.get? 0
    arch := parts.get? 1
    channel := parts.get? 2
    version := parts.get? 3 }

/-- One step of the defaulting loop:
`if (!build[field] && options[field]) build[field] = options[field]`. -/
def fieldDefault (b o : Option String) : Option String :=
  if !jsTruthyOpt b && jsTruthyOpt o then o else b

/-- The `['platform','arch','channel','version'].forEach` defaulting of
`normalizeBuild` (runs only when the command is not `remove`). -/
def applyBuildDefaults (b : RawBuild) (opts : NOptions) : RawBuild :=
  { platform := fieldDefault b.platform opts.platform
    arch := fieldDefault b.arch opts.arch
    channel := fieldDefault b.channel opts.channel
    version := fieldDefault b.version opts.version }

/-- `if (build.version && build.version.indexOf('v') === 0)
build.version = build.version.substring(1)` — strips exactly one leading
`'v'`. -/
def vStrip (v : Option String) : Option String :=
  match v with
  | none => none
  | some s =>
    match s.data with
    | 'v' :: rest => some (String.mk rest)
    | _ => some s

/-- `normalizeBuild(build, options)` (normalize-options.js lines 168-194):
parse a string input, default missing fields from `options` (unless the
command is `remove`), strip one leading version prefix, and throw when no
version was resolved for a non-remove command. -/
def normalizeBuild (input : BuildInput) (opts : NOptions) : Except String RawBuild :=
  let b0 := match input with
    | .str s => parseBuildStr s
    | .obj b => b
  let b1 := if opts.command == "remove" then b0 else applyBuildDefaults b0 opts
  let b2 := { b1 with version := vStrip b1.version }
  if !jsTruthyOpt b2.version && !(opts.command == "remove") then
    .error ("Could not determine a version for build. It seems that " ++
      "you\x27ve not set a version in your package.json")
  else .ok b2

/-- A JS `\w` word character: `[A-Za-z0-9_]`. -/
def isWordCharB (c : Char) : Bool :=
  c.isAlphanum || c == '_'

/-- `s.match(/\w+/)` is truthy: the string contains a word character. -/
def hasWordChar (s : String) : Bool :=
  s.data.any isWordCharB

/-- Does `/\d+\.\d+\.\d+/` match starting exactly at this position? -/
def semverHere (l : List Char) : Bool :=
  let s1 := l.span Char.isDigit
  match s1.2 with
  | '.' :: r2 =>
    let s2 := r2.span Char.isDigit
    match s2.2 with
    | '.' :: r4 =>
      !s1.1.isEmpty && !s2.1.isEmpty && !(r4.takeWhile Char.isDigit).isEmpty
    | _ => false
  | _ => false

/-- `s.match(/\d+\.\d+\.\d+/)` is truthy: the (unanchored) pattern matches
somewhere in `s`. -/
def semverSearch (s : String) : Bool :=
  s.data.tails.any semverHere

/-- The predicate of the `invalidBuilds` filter of
`validateIfRemoveCommand`: a falsy field, or the `isValid` regexp
conjunction failing. -/
def buildInvalid (b : RawBuild) : Bool :=
  if !jsTruthyOpt b.platform || !jsTruthyOpt b.arch || !jsTruthyOpt b.channel ||
      !jsTruthyOpt b.version then
    true
  else
    !(hasWordChar (b.platform.getD "") && hasWordChar (b.arch.getD "") &&
      hasWordChar (b.channel.getD "") && semverSearch (b.version.getD ""))

/-- `validateIfRemoveCommand(options)` (normalize-options.js lines
221-244): a no-op unless the command is `remove`; then an empty build list
throws, and any invalid build throws. -/
def validateIfRemoveCommand (command : String) (builds : List RawBuild) :
    Except String Unit :=
  if !(command == "remove") then .ok ()
  else
    let invalidBuilds := builds.filter buildInvalid
    if builds.isEmpty then
      .error "You should specify one or more builds to remove."
    else if !invalidBuilds.isEmpty then
      .error "For the remove command you need to specify a full buildId."
    else .ok ()

/-- `pre` is a literal prefix of `s` (JS `s.indexOf(pre) === 0`). -/
def strStarts (s pre : String) : Bool :=
  pre.data.isPrefixOf s.data

end SimplePublisher

namespace SimplePublisher

/-! ## Theorems -/

theorem lookupA_setA_self {α : Type} (l : List (String × α)) (k : String) (v : α) :
    lookupA (setA l k v) k = some v := by
  induction l with
  | nil => simp [setA, lookupA]
  | cons hd tl ih =>
    by_cases h : hd.1 = k
    · simp [setA, lookupA, h]
    · simp [setA, lookupA, h, ih]

theorem lookupA_setA_ne {α : Type} (l : List (String × α)) (k k' : String) (v : α)
    (h : k' ≠ k) : lookupA (setA l k v) k' = lookupA l k' := by
  induction l with
  | nil => simp [setA, lookupA, Ne.symm h]
  | cons hd tl ih =>
    by_cases hh : hd.1 = k
    · have hk' : hd.1 ≠ k' := by rw [hh]; exact Ne.symm h
      simp [setA, lookupA, hh, hk', Ne.symm h, ih]
    · by_cases hk : hd.1 = k'
      · simp [setA, lookupA, hh, hk, h]
      · simp [setA, lookupA, hh, hk, h, ih]

theorem lookupA_delA_self {α : Type} (l : List (String × α)) (k : String) :
    lookupA (delA l k) k = none := by
  induction l with
  | nil => simp [delA, lookupA]
  | cons hd tl ih =>
    by_cases h : hd.1 = k
    · simp [delA, h, ih]
    · simp [delA, lookupA, h, ih]

theorem lookupA_delA_ne {α : Type} (l : List (String × α)) (k k' : String)
    (h : k' ≠ k) : lookupA (delA l k) k' = lookupA l k' := by
  induction l with
  | nil => simp [delA]
  | cons hd tl ih =>
    by_cases hh : hd.1 = k
    · have hk' : hd.1 ≠ k' := by rw [hh]; exact Ne.symm h
      simp [delA, lookupA, hh, hk', Ne.symm h, ih]
    · simp [delA, lookupA, hh, ih]

/-! ### C1 — `updateUpdatesJson` with a removal signal -/

/-- C1 (counterexample): calling the manifest update with the `null`
removal signal on a manifest whose record version matches the build does
NOT delete the record — `typeof null === 'object'`, so the code stores
`null` at the key; the result is neither the deletion nor a no-op. -/
theorem updateUpdatesJson_null_overwrites :
    updateUpdatesJson [("win32-x64-prod", MVal.record ⟨some "1.0.0", []⟩)]
        ⟨"win32", "x64", "prod", "1.0.0", []⟩ JSArg.nullv
      = [("win32-x64-prod", MVal.nullv)]
    ∧ updateUpdatesJson [("win32-x64-prod", MVal.record ⟨some "1.0.0", []⟩)]
        ⟨"win32", "x64", "prod", "1.0.0", []⟩ JSArg.nullv
      ≠ delA [("win32-x64-prod", MVal.record ⟨some "1.0.0", []⟩)] "win32-x64-prod"
    ∧ updateUpdatesJson [("win32-x64-prod", MVal.record ⟨some "1.0.0", []⟩)]
        ⟨"win32", "x64", "prod", "1.0.0", []⟩ JSArg.nullv
      ≠ [("win32-x64-prod", MVal.record ⟨some "1.0.0", []⟩)] := by
  decide

/-- C1 (amended): for a falsy NON-object data argument (`undefined`, the
signal the remove command actually sends), the record at
`buildId(B, without version)` is deleted iff it exists as a record whose
version equals the build's version (no other key is modified); otherwise
the pushed manifest is unchanged.  A `null` argument instead overwrites
the key with `null` (see the counterexample). -/
theorem updateUpdatesJson_removal_semantics (json : Manifest) (build : Build) :
    ((∃ r, lookupA json (getBuildId build false) = some (MVal.record r) ∧
        r.version = some build.version) →
      lookupA (updateUpdatesJson json build JSArg.nonObject)
          (getBuildId build false) = none
      ∧ ∀ k, k ≠ getBuildId build false →
          lookupA (updateUpdatesJson json build JSArg.nonObject) k = lookupA json k)
    ∧ ((∀ r, lookupA json (getBuildId build false) = some (MVal.record r) →
        r.version ≠ some build.version) →
      updateUpdatesJson json build JSArg.nonObject = json) := by
  constructor
  · rintro ⟨r, hr, hv⟩
    have hupd : updateUpdatesJson json build JSArg.nonObject
        = delA json (getBuildId build false) := by
      simp [updateUpdatesJson, hr, hv]
    rw [hupd]
    exact ⟨lookupA_delA_self json _,
      fun k hk => lookupA_delA_ne json _ k hk⟩
  · intro hall
    cases hjs : lookupA json (getBuildId build false) with
    | none => simp [updateUpdatesJson, hjs]
    | some v =>
      cases v with
      | nullv => simp [updateUpdatesJson, hjs]
      | record r => simp [updateUpdatesJson, hjs, hall r hjs]

/-- C1 (witness): the amended removal semantics applied to concrete
manifests with a matching and with a non-matching version. -/
theorem updateUpdatesJson_removal_semantics_witness :
    lookupA (updateUpdatesJson [("win32-x64-prod", MVal.record ⟨some "1.0.0", []⟩)]
        ⟨"win32", "x64", "prod", "1.0.0", []⟩ JSArg.nonObject) "win32-x64-prod" = none
    ∧ updateUpdatesJson [("win32-x64-prod", MVal.record ⟨some "2.0.0", []⟩)]
        ⟨"win32", "x64", "prod", "1.0.0", []⟩ JSArg.nonObject
      = [("win32-x64-prod", MVal.record ⟨some "2.0.0", []⟩)] := by
  have hb : getBuildId (⟨"win32", "x64", "prod", "1.0.0", []⟩ : Build) false
      = "win32-x64-prod" := by decide
  constructor
  · have h := (updateUpdatesJson_removal_semantics
        [("win32-x64-prod", MVal.record ⟨some "1.0.0", []⟩)]
        ⟨"win32", "x64", "prod", "1.0.0", []⟩).1
      ⟨⟨some "1.0.0", []⟩, by rw [hb]; decide, rfl⟩
    rw [hb] at h
    exact h.1
  · refine (updateUpdatesJson_removal_semantics
        [("win32-x64-prod", MVal.record ⟨some "2.0.0", []⟩)]
        ⟨"win32", "x64", "prod", "1.0.0", []⟩).2 ?_
    intro r hr
    rw [hb] at hr
    have hx : lookupA [("win32-x64-prod", MVal.record ⟨some "2.0.0", []⟩)]
        "win32-x64-prod" = some (MVal.record ⟨some "2.0.0", []⟩) := by decide
    rw [hx] at hr
    cases Option.some.inj hr
    decide

/-! ### C3 — `updateUpdatesJson` with a structured record -/

/-- C3: updating the manifest with a structured record sets the key
`buildId(B, without version)` to exactly that record (whole-record
overwrite), and every other key of the fetched manifest is unaltered in
the pushed manifest. -/
theorem updateUpdatesJson_record_overwrite (json : Manifest) (build : Build)
    (r : MRecord) :
    lookupA (updateUpdatesJson json build (JSArg.record r))
        (getBuildId build false) = some (MVal.record r)
    ∧ ∀ k, k ≠ getBuildId build false →
        lookupA (updateUpdatesJson json build (JSArg.record r)) k = lookupA json k := by
  constructor
  · simpa [updateUpdatesJson] using
      lookupA_setA_self json (getBuildId build false) (MVal.record r)
  · intro k hk
    simpa [updateUpdatesJson] using
      lookupA_setA_ne json (getBuildId build false) k (MVal.record r) hk

/-- C3 (witness): record overwrite on a concrete manifest; the pre-existing
key of another platform is untouched. -/
theorem updateUpdatesJson_record_overwrite_witness :
    lookupA (updateUpdatesJson [("linux-x64-prod", MVal.nullv)]
        ⟨"win32", "x64", "prod", "1.3.0", []⟩ (JSArg.record ⟨some "1.3.0", []⟩))
        (getBuildId (⟨"win32", "x64", "prod", "1.3.0", []⟩ : Build) false)
      = some (MVal.record ⟨some "1.3.0", []⟩)
    ∧ lookupA (updateUpdatesJson [("linux-x64-prod", MVal.nullv)]
        ⟨"win32", "x64", "prod", "1.3.0", []⟩ (JSArg.record ⟨some "1.3.0", []⟩))
        "linux-x64-prod"
      = lookupA [("linux-x64-prod", MVal.nullv)] "linux-x64-prod" :=
  ⟨(updateUpdatesJson_record_overwrite [("linux-x64-prod", MVal.nullv)]
      ⟨"win32", "x64", "prod", "1.3.0", []⟩ ⟨some "1.3.0", []⟩).1,
   (updateUpdatesJson_record_overwrite [("linux-x64-prod", MVal.nullv)]
      ⟨"win32", "x64", "prod", "1.3.0", []⟩ ⟨some "1.3.0", []⟩).2
     "linux-x64-prod" (by decide)⟩

/-! ### C4 — `publishAssets` with an empty asset mapping -/

/-- C4: with an empty asset mapping, `publishAssets` fails with the
no-assets error before the upload loop: zero `uploadFile` calls, zero
mirror copies, and no result-map entries. -/
theorem publishAssets_empty (upload : String → Option String) (build : Build)
    (h : build.assets = []) :
    publishAssets upload build =
      (initPublishState,
        some ("There are no assets for build " ++ getBuildId build true ++
          ". Check the dist folder."))
    ∧ (publishAssets upload build).1.uploadCalls = []
    ∧ (publishAssets upload build).1.mirrorCalls = []
    ∧ (publishAssets upload build).1.result = []
    ∧ (publishAssets upload build).1.resultLocal = [] := by
  simp [publishAssets, h, initPublishState]

/-- C4 (witness): the empty-assets failure on a concrete build. -/
theorem publishAssets_empty_witness :
    publishAssets (fun _ => none) ⟨"win32", "x64", "prod", "1.0.0", []⟩ =
      (initPublishState,
        some ("There are no assets for build " ++
          getBuildId (⟨"win32", "x64", "prod", "1.0.0", []⟩ : Build) true ++
          ". Check the dist folder."))
    ∧ (publishAssets (fun _ => none) ⟨"win32", "x64", "prod", "1.0.0", []⟩).1.uploadCalls = []
    ∧ (publishAssets (fun _ => none) ⟨"win32", "x64", "prod", "1.0.0", []⟩).1.mirrorCalls = []
    ∧ (publishAssets (fun _ => none) ⟨"win32", "x64", "prod", "1.0.0", []⟩).1.result = []
    ∧ (publishAssets (fun _ => none) ⟨"win32", "x64", "prod", "1.0.0", []⟩).1.resultLocal = [] :=
  publishAssets_empty (fun _ => none) ⟨"win32", "x64", "prod", "1.0.0", []⟩ rfl

/-! ### Lemmas about the `publishAssets` loop -/

theorem jsTruthy_jsUrlString (u : Option String) :
    jsTruthyUrl (some (jsUrlString u)) = jsTruthyUrl u := by
  cases u with
  | none => simp [jsTruthyUrl, jsUrlString]
  | some s => simp [jsTruthyUrl, jsUrlString]

theorem jsUrlString_of_falsy (u : Option String) (h : jsTruthyUrl u = false) :
    jsUrlString u = "" := by
  cases u with
  | none => rfl
  | some s => simpa [jsTruthyUrl] using h

theorem cacheInv_init (upload : String → Option String) :
    CacheInv upload initPublishState := by
  constructor
  · intro p c hp
    simp [initPublishState, lookupA] at hp
  · intro p _
    simp [initPublishState]

theorem pubStep_of_hit (upload : String → Option String) (build : Build)
    (st : PublishState) (a : String × String) (cached : String)
    (hc : lookupA st.uploaded a.2 = some cached) :
    pubStep upload build st a =
      pubRecord build st a.1 a.2 (some cached) st.uploadCalls := by
  simp [pubStep, hc]

theorem pubStep_of_miss (upload : String → Option String) (build : Build)
    (st : PublishState) (a : String × String)
    (hc : lookupA st.uploaded a.2 = none) :
    pubStep upload build st a =
      pubRecord build st a.1 a.2 (upload a.2) (st.uploadCalls ++ [a.2]) := by
  simp [pubStep, hc]

theorem cacheInv_step (upload : String → Option String) (build : Build)
    (st : PublishState) (a : String × String) (h : CacheInv upload st) :
    CacheInv upload (pubStep upload build st a) := by
  obtain ⟨h1, h2⟩ := h
  cases hc : lookupA st.uploaded a.2 with
  | some cached =>
    obtain ⟨hcv, hcc⟩ := h1 a.2 cached hc
    rw [pubStep_of_hit upload build st a cached hc]
    constructor
    · intro p c hp
      simp only [pubRecord] at hp ⊢
      by_cases hpp : p = a.2
      · subst hpp
        rw [show jsUrlString (some cached) = cached from rfl,
          lookupA_setA_self] at hp
        obtain rfl : cached = c := Option.some.inj hp
        exact ⟨hcv, hcc⟩
      · rw [lookupA_setA_ne _ _ _ _ hpp] at hp
        exact h1 p c hp
    · intro p hp
      simp only [pubRecord] at hp ⊢
      by_cases hpp : p = a.2
      · subst hpp
        rw [show jsUrlString (some cached) = cached from rfl,
          lookupA_setA_self] at hp
        cases hp
      · rw [lookupA_setA_ne _ _ _ _ hpp] at hp
        exact h2 p hp
  | none =>
    have hzero := h2 a.2 hc
    rw [pubStep_of_miss upload build st a hc]
    constructor
    · intro p c hp
      simp only [pubRecord] at hp ⊢
      by_cases hpp : p = a.2
      · subst hpp
        rw [lookupA_setA_self] at hp
        obtain rfl : jsUrlString (upload a.2) = c := Option.some.inj hp
        refine ⟨rfl, ?_⟩
        simp [List.count_append, hzero]
      · rw [lookupA_setA_ne _ _ _ _ hpp] at hp
        obtain ⟨hv, hcount⟩ := h1 p c hp
        refine ⟨hv, ?_⟩
        simp [List.count_append, hcount, List.count_cons, hpp]
    · intro p hp
      simp only [pubRecord] at hp ⊢
      by_cases hpp : p = a.2
      · subst hpp
        rw [lookupA_setA_self] at hp
        cases hp
      · rw [lookupA_setA_ne _ _ _ _ hpp] at hp
        simp [List.count_append, h2 p hp, List.count_cons, hpp]

theorem cacheInv_fold (upload : String → Option String) (build : Build)
    (l : List (String × String)) :
    ∀ st : PublishState, CacheInv upload st →
      CacheInv upload (l.foldl (pubStep upload build) st) := by
  induction l with
  | nil => intro st h; exact h
  | cons a tl ih =>
    intro st h
    exact ih (pubStep upload build st a) (cacheInv_step upload build st a h)

theorem uploaded_isSome_step (upload : String → Option String) (build : Build)
    (st : PublishState) (a : String × String) (p : String)
    (h : (lookupA st.uploaded p).isSome = true) :
    (lookupA (pubStep upload build st a).uploaded p).isSome = true := by
  cases hc : lookupA st.uploaded a.2 with
  | some cached =>
    rw [pubStep_of_hit upload build st a cached hc]
    by_cases hpp : p = a.2
    · subst hpp; simp [pubRecord, lookupA_setA_self]
    · simpa [pubRecord, lookupA_setA_ne _ _ _ _ hpp] using h
  | none =>
    rw [pubStep_of_miss upload build st a hc]
    by_cases hpp : p = a.2
    · subst hpp; simp [pubRecord, lookupA_setA_self]
    · simpa [pubRecord, lookupA_setA_ne _ _ _ _ hpp] using h

theorem uploaded_isSome_fold (upload : String → Option String) (build : Build)
    (l : List (String × String)) :
    ∀ (st : PublishState) (p : String), (lookupA st.uploaded p).isSome = true →
      (lookupA (l.foldl (pubStep upload build) st).uploaded p).isSome = true := by
  induction l with
  | nil => intro st p h; exact h
  | cons a tl ih =>
    intro st p h
    exact ih (pubStep upload build st a) p (uploaded_isSome_step upload build st a p h)

theorem uploaded_present (upload : String → Option String) (build : Build)
    (l : List (String × String)) :
    ∀ (st : PublishState) (n p : String), (n, p) ∈ l →
      (lookupA (l.foldl (pubStep upload build) st).uploaded p).isSome = true := by
  induction l with
  | nil => intro st n p h; cases h
  | cons a tl ih =>
    intro st n p h
    rcases List.mem_cons.mp h with heq | hmem
    · obtain rfl : a = (n, p) := heq.symm
      apply uploaded_isSome_fold upload build tl (pubStep upload build st (n, p)) p
      cases hc : lookupA st.uploaded p with
      | some cached =>
        rw [pubStep_of_hit upload build st (n, p) cached hc]
        simp [pubRecord, lookupA_setA_self]
      | none =>
        rw [pubStep_of_miss upload build st (n, p) hc]
        simp [pubRecord, lookupA_setA_self]
    · exact ih (pubStep upload build st a) n p hmem

theorem pubStep_result_ne (upload : String → Option String) (build : Build)
    (st : PublishState) (a : String × String) (n : String) (h : a.1 ≠ n) :
    lookupA (pubStep upload build st a).result n = lookupA st.result n
    ∧ lookupA (pubStep upload build st a).resultLocal n = lookupA st.resultLocal n := by
  cases hc : lookupA st.uploaded a.2 with
  | some cached =>
    rw [pubStep_of_hit upload build st a cached hc]
    constructor <;>
      · simp only [pubRecord]
        split <;> simp [lookupA_setA_ne _ _ _ _ (Ne.symm h)]
  | none =>
    rw [pubStep_of_miss upload build st a hc]
    constructor <;>
      · simp only [pubRecord]
        split <;> simp [lookupA_setA_ne _ _ _ _ (Ne.symm h)]

theorem fold_result_untouched (upload : String → Option String) (build : Build)
    (l : List (String × String)) :
    ∀ (st : PublishState) (n : String), (∀ a ∈ l, a.1 ≠ n) →
      lookupA (l.foldl (pubStep upload build) st).result n = lookupA st.result n
      ∧ lookupA (l.foldl (pubStep upload build) st).resultLocal n
        = lookupA st.resultLocal n := by
  induction l with
  | nil => intro st n _; exact ⟨rfl, rfl⟩
  | cons a tl ih =>
    intro st n h
    have hstep := pubStep_result_ne upload build st a n (h a (List.mem_cons_self a tl))
    have hrest := ih (pubStep upload build st a) n
      (fun b hb => h b (List.mem_cons_of_mem a hb))
    exact ⟨hrest.1.trans hstep.1, hrest.2.trans hstep.2⟩

theorem fold_result_entry (upload : String → Option String) (build : Build)
    (l : List (String × String)) :
    ∀ (st : PublishState) (n p : String), (n, p) ∈ l →
      (l.map Prod.fst).Nodup → CacheInv upload st →
      lookupA st.result n = none → lookupA st.resultLocal n = none →
      ((jsTruthyUrl (upload p) = true →
          lookupA (l.foldl (pubStep upload build) st).result n
            = some (jsUrlString (upload p))
          ∧ lookupA (l.foldl (pubStep upload build) st).resultLocal n
            = some (getBuildId build true ++ "/" ++ basename (jsUrlString (upload p))))
       ∧ (jsTruthyUrl (upload p) = false →
          lookupA (l.foldl (pubStep upload build) st).result n = none
          ∧ lookupA (l.foldl (pubStep upload build) st).resultLocal n = none)) := by
  induction l with
  | nil => intro st n p h; cases h
  | cons a tl ih =>
    intro st n p hmem hnodup hinv hres hloc
    rcases List.mem_cons.mp hmem with heq | hmem'
    · -- the head processes (n, p); later steps carry different names
      obtain rfl : a = (n, p) := heq.symm
      have hnames : ∀ b ∈ tl, b.1 ≠ n := by
        intro b hb hbn
        have hn : n ∈ tl.map Prod.fst := hbn ▸ List.mem_map_of_mem Prod.fst hb
        exact (List.nodup_cons.mp hnodup).1 hn
      have hrest := fold_result_untouched upload build tl
        (pubStep upload build st (n, p)) n hnames
      have hstep : lookupA (pubStep upload build st (n, p)).result n
            = (if jsTruthyUrl (upload p) then
                some (jsUrlString (upload p)) else lookupA st.result n)
          ∧ lookupA (pubStep upload build st (n, p)).resultLocal n
            = (if jsTruthyUrl (upload p) then
                some (getBuildId build true ++ "/" ++ basename (jsUrlString (upload p)))
              else lookupA st.resultLocal n) := by
        cases hc : lookupA st.uploaded p with
        | some cached =>
          obtain ⟨hcv, _⟩ := hinv.1 p cached hc
          subst hcv
          rw [pubStep_of_hit upload build st (n, p) _ hc]
          constructor <;>
            · simp only [pubRecord, jsTruthy_jsUrlString,
                show jsUrlString (some (jsUrlString (upload p)))
                  = jsUrlString (upload p) from rfl]
              split <;> simp [lookupA_setA_self]
        | none =>
          rw [pubStep_of_miss upload build st (n, p) hc]
          constructor <;>
            · simp only [pubRecord]
              split <;> simp [lookupA_setA_self]
      constructor
      · intro htru
        rw [htru] at hstep
        simp only [if_true] at hstep
        exact ⟨hrest.1.trans hstep.1, hrest.2.trans hstep.2⟩
      · intro hfal
        rw [hfal] at hstep
        simp only [Bool.false_eq_true, if_false] at hstep
        exact ⟨hrest.1.trans (hstep.1.trans hres),
          hrest.2.trans (hstep.2.trans hloc)⟩
    · -- the head is a different asset: its name differs from `n`
      have hne : a.1 ≠ n := by
        intro hbn
        have hn : n ∈ tl.map Prod.fst :=
          List.mem_map_of_mem Prod.fst hmem'
        exact (List.nodup_cons.mp hnodup).1 (hbn ▸ hn)
      have hstep := pubStep_result_ne upload build st a n hne
      exact ih (pubStep upload build st a) n p hmem'
        (List.nodup_cons.mp hnodup).2
        (cacheInv_step upload build st a hinv)
        (hstep.1.trans hres) (hstep.2.trans hloc)

/-! ### C2 — deduplication of identical file paths -/

/-- C2: when two distinct asset names are bound to the same local file
path, `publishAssets` passes that path to `uploadFile` exactly once, and
the result entries of the two names are equal (both the reused URL when
it is truthy). -/
theorem publishAssets_dedup (upload : String → Option String) (build : Build)
    (n1 n2 p : String)
    (hnodup : (build.assets.map Prod.fst).Nodup)
    (h1 : (n1, p) ∈ build.assets) (h2 : (n2, p) ∈ build.assets) (hne : n1 ≠ n2) :
    ∃ st, publishAssets upload build = (st, none)
      ∧ st.uploadCalls.count p = 1
      ∧ lookupA st.result n1 = lookupA st.result n2
      ∧ (jsTruthyUrl (upload p) = true →
          lookupA st.result n1 = some (jsUrlString (upload p))) := by
  have hempty : build.assets.isEmpty = false := by
    cases hb : build.assets with
    | nil => rw [hb] at h1; cases h1
    | cons x xs => rfl
  have hinv := cacheInv_fold upload build build.assets initPublishState
    (cacheInv_init upload)
  have e1 := fold_result_entry upload build build.assets initPublishState n1 p
    h1 hnodup (cacheInv_init upload) rfl rfl
  have e2 := fold_result_entry upload build build.assets initPublishState n2 p
    h2 hnodup (cacheInv_init upload) rfl rfl
  refine ⟨build.assets.foldl (pubStep upload build) initPublishState,
    by simp [publishAssets, hempty], ?_, ?_, fun htru => (e1.1 htru).1⟩
  · have hsome := uploaded_present upload build build.assets initPublishState
      n1 p h1
    obtain ⟨c, hc⟩ := Option.isSome_iff_exists.mp hsome
    exact (hinv.1 p c hc).2
  · rcases Bool.eq_false_or_eq_true (jsTruthyUrl (upload p)) with hb | hb
    · rw [(e1.1 hb).1, (e2.1 hb).1]
    · rw [(e1.2 hb).1, (e2.2 hb).1]

/-- C2 (witness): two names for the same file on a concrete build; one
upload call, equal result entries. -/
theorem publishAssets_dedup_witness :
    ∃ st, publishAssets (fun q => some ("http://r/" ++ q))
        ⟨"w", "a", "c", "1", [("install", "f.exe"), ("update", "f.exe")]⟩ = (st, none)
      ∧ st.uploadCalls.count "f.exe" = 1
      ∧ lookupA st.result "install" = lookupA st.result "update"
      ∧ (jsTruthyUrl ((fun q => some ("http://r/" ++ q)) "f.exe") = true →
          lookupA st.result "install"
            = some (jsUrlString ((fun q => some ("http://r/" ++ q)) "f.exe"))) :=
  publishAssets_dedup (fun q => some ("http://r/" ++ q))
    ⟨"w", "a", "c", "1", [("install", "f.exe"), ("update", "f.exe")]⟩
    "install" "update" "f.exe" (by decide) (by decide) (by decide) (by decide)

/-! ### C8 — result entries, local paths and the dedup sentinel -/

/-- C8 (counterexample): `result.local[name]` is built from
`path.basename(fileUrl)` — the basename of the URL the transport returned
— not from the normalized local filename; a transport whose URL basename
differs separates the two. -/
theorem publishAssets_local_counterexample :
    lookupA (publishAssets (fun _ => some "http://h/x/other.zip")
        ⟨"win32", "x64", "prod", "1.0.0", [("install", "dir/My App.exe")]⟩).1.resultLocal
        "install"
      = some "win32-x64-prod-v1.0.0/other.zip"
    ∧ some "win32-x64-prod-v1.0.0/other.zip"
      ≠ some (getBuildId
          (⟨"win32", "x64", "prod", "1.0.0", [("install", "dir/My App.exe")]⟩ : Build) true
          ++ "/" ++ normalizeFileName "dir/My App.exe") := by
  decide

/-- C8 (amended): entries `result[name]`/`result.local[name]` are created
iff the upload's URL is truthy; when created, `result.local[name]` is the
buildId (with version) joined with the BASENAME OF THE RETURNED URL
(which equals the normalized filename only when the URL ends with it); a
falsy URL leaves both maps without the name and records the `''` sentinel
in the dedup cache. -/
theorem publishAssets_result_policy (upload : String → Option String) (build : Build)
    (n p : String)
    (hnodup : (build.assets.map Prod.fst).Nodup)
    (hmem : (n, p) ∈ build.assets) :
    ∃ st, publishAssets upload build = (st, none)
      ∧ (jsTruthyUrl (upload p) = true →
          lookupA st.result n = some (jsUrlString (upload p))
          ∧ lookupA st.resultLocal n
            = some (getBuildId build true ++ "/" ++ basename (jsUrlString (upload p))))
      ∧ (jsTruthyUrl (upload p) = false →
          lookupA st.result n = none
          ∧ lookupA st.resultLocal n = none
          ∧ lookupA st.uploaded p = some "") := by
  have hempty : build.assets.isEmpty = false := by
    cases hb : build.assets with
    | nil => rw [hb] at hmem; cases hmem
    | cons x xs => rfl
  have hinv := cacheInv_fold upload build build.assets initPublishState
    (cacheInv_init upload)
  have e := fold_result_entry upload build build.assets initPublishState n p
    hmem hnodup (cacheInv_init upload) rfl rfl
  refine ⟨build.assets.foldl (pubStep upload build) initPublishState,
    by simp [publishAssets, hempty], e.1, fun hfal => ⟨(e.2 hfal).1, (e.2 hfal).2, ?_⟩⟩
  have hsome := uploaded_present upload build build.assets initPublishState n p hmem
  obtain ⟨c, hc⟩ := Option.isSome_iff_exists.mp hsome
  rw [hc, (hinv.1 p c hc).1, jsUrlString_of_falsy (upload p) hfal]

/-- C8 (witness): a truthy-URL asset gets both entries (local path built
from the URL basename); a falsy-URL transport leaves no entries and the
`''` sentinel in the cache. -/
theorem publishAssets_result_policy_witness :
    (∃ st, publishAssets (fun _ => some "http://h/x/other.zip")
        ⟨"win32", "x64", "prod", "1.0.0", [("install", "dir/My App.exe")]⟩ = (st, none)
      ∧ (jsTruthyUrl (some "http://h/x/other.zip") = true →
          lookupA st.result "install" = some (jsUrlString (some "http://h/x/other.zip"))
          ∧ lookupA st.resultLocal "install"
            = some (getBuildId
                (⟨"win32", "x64", "prod", "1.0.0", [("install", "dir/My App.exe")]⟩ : Build)
              true ++ "/" ++ basename (jsUrlString (some "http://h/x/other.zip"))))
      ∧ (jsTruthyUrl (some "http://h/x/other.zip") = false →
          lookupA st.result "install" = none
          ∧ lookupA st.resultLocal "install" = none
          ∧ lookupA st.uploaded "dir/My App.exe" = some ""))
    ∧ (∃ st, publishAssets (fun _ => none)
        ⟨"w", "a", "c", "1", [("install", "f.exe")]⟩ = (st, none)
      ∧ (jsTruthyUrl (none : Option String) = true →
          lookupA st.result "install" = some (jsUrlString (none : Option String))
          ∧ lookupA st.resultLocal "install"
            = some (getBuildId (⟨"w", "a", "c", "1", [("install", "f.exe")]⟩ : Build) true
              ++ "/" ++ basename (jsUrlString (none : Option String))))
      ∧ (jsTruthyUrl (none : Option String) = false →
          lookupA st.result "install" = none
          ∧ lookupA st.resultLocal "install" = none
          ∧ lookupA st.uploaded "f.exe" = some "")) :=
  ⟨publishAssets_result_policy (fun _ => some "http://h/x/other.zip")
      ⟨"win32", "x64", "prod", "1.0.0", [("install", "dir/My App.exe")]⟩
      "install" "dir/My App.exe" (by decide) (by decide),
   publishAssets_result_policy (fun _ => none)
      ⟨"w", "a", "c", "1", [("install", "f.exe")]⟩
      "install" "f.exe" (by decide) (by decide)⟩

/-! ### List helpers for `basename` and `replace` -/

theorem takeWhile_append_all {p : Char → Bool} (l l2 : List Char)
    (h : ∀ x ∈ l, p x = true) :
    (l ++ l2).takeWhile p = l ++ l2.takeWhile p := by
  induction l with
  | nil => rfl
  | cons a t ih =>
    have ha := h a (List.mem_cons_self a t)
    simp only [List.cons_append, List.takeWhile_cons, ha, if_true]
    rw [ih (fun x hx => h x (List.mem_cons_of_mem a hx))]

theorem takeWhile_all {p : Char → Bool} (l : List Char)
    (h : ∀ x ∈ l, p x = true) : l.takeWhile p = l := by
  have := takeWhile_append_all l [] h
  simpa using this

theorem mem_basename_ne_slash (s : String) (c : Char)
    (h : c ∈ (basename s).data) : c ≠ '/' := by
  unfold basename at h
  rw [show (String.mk ((((s.data.reverse.dropWhile (fun c => c == '/')).takeWhile
      (fun c => c != '/')).reverse))).data
    = (((s.data.reverse.dropWhile (fun c => c == '/')).takeWhile
      (fun c => c != '/')).reverse) from rfl, List.mem_reverse] at h
  have := List.mem_takeWhile_imp h
  simpa [bne_iff_ne] using this

theorem basename_no_slash (l : List Char) (h : '/' ∉ l) :
    basename (String.mk l) = String.mk l := by
  unfold basename
  refine congrArg String.mk ?_
  show ((l.reverse.dropWhile (fun c => c == '/')).takeWhile (fun c => c != '/')).reverse = l
  cases hr : l.reverse with
  | nil =>
    have : l = [] := by simpa using congrArg List.reverse hr
    simp [this]
  | cons c t =>
    have hcl : c ∈ l := by
      rw [← List.mem_reverse, hr]; exact List.mem_cons_self c t
    have hc : (c == '/') = false := by
      simp only [beq_eq_false_iff_ne, ne_eq]
      exact fun he => h (he ▸ hcl)
    have hall : ∀ x ∈ c :: t, (x != '/') = true := by
      intro x hx
      have hxl : x ∈ l := by rw [← List.mem_reverse, hr]; exact hx
      simp only [bne_iff_ne, ne_eq]
      exact fun he => h (he ▸ hxl)
    rw [List.dropWhile_cons, hc]
    simp only [Bool.false_eq_true, if_false]
    rw [takeWhile_all _ hall, ← hr, List.reverse_reverse]

theorem isJsSpace_hyphen : isJsSpace '-' = false := by decide

theorem normalizeFileName_chars (f : String) (c : Char)
    (h : c ∈ (normalizeFileName f).data) : isJsSpace c = false ∧ c ≠ '/' := by
  unfold normalizeFileName at h
  rw [show (String.mk ((basename f).data.map
      (fun c => if isJsSpace c then '-' else c))).data
    = (basename f).data.map (fun c => if isJsSpace c then '-' else c) from rfl,
    List.mem_map] at h
  obtain ⟨x, hx, hgx⟩ := h
  by_cases hsx : isJsSpace x
  · have hc : c = '-' := by rw [← hgx]; simp [hsx]
    subst hc
    exact ⟨isJsSpace_hyphen, by decide⟩
  · have hc : c = x := by rw [← hgx]; simp [hsx]
    subst hc
    exact ⟨Bool.eq_false_iff.mpr hsx, mem_basename_ne_slash f c hx⟩

theorem normalizeFileName_idem (f : String) :
    normalizeFileName (normalizeFileName f) = normalizeFileName f := by
  have hns : '/' ∉ (basename f).data.map (fun c => if isJsSpace c then '-' else c) := by
    intro hmem
    rw [List.mem_map] at hmem
    obtain ⟨x, hx, hgx⟩ := hmem
    by_cases hsx : isJsSpace x
    · rw [if_pos hsx] at hgx; cases hgx
    · rw [if_neg hsx] at hgx
      exact mem_basename_ne_slash f x hx hgx
  show normalizeFileName (String.mk ((basename f).data.map
      (fun c => if isJsSpace c then '-' else c))) = normalizeFileName f
  unfold normalizeFileName
  rw [basename_no_slash _ hns]
  refine congrArg String.mk ?_
  show ((basename f).data.map (fun c => if isJsSpace c then '-' else c)).map
      (fun c => if isJsSpace c then '-' else c)
    = (basename f).data.map (fun c => if isJsSpace c then '-' else c)
  rw [List.map_map]
  apply List.map_congr_left
  intro x _
  by_cases hsx : isJsSpace x
  · simp [Function.comp, hsx, isJsSpace_hyphen]
  · simp [Function.comp, hsx]

theorem normalizeFileName_dir (d f : String) (h1 : f.data ≠ []) (h2 : '/' ∉ f.data) :
    normalizeFileName (d ++ "/" ++ f) = normalizeFileName f := by
  have hb : basename (d ++ "/" ++ f) = String.mk f.data := by
    unfold basename
    refine congrArg String.mk ?_
    have hdata : (d ++ "/" ++ f).data = d.data ++ ('/' :: f.data) := by
      rw [String.data_append, String.data_append]
      simp [show ("/" : String).data = ['/'] from rfl]
    rw [hdata, List.reverse_append]
    rw [show ('/' :: f.data).reverse = f.data.reverse ++ ['/'] by
      simp [List.reverse_cons]]
    rw [List.append_assoc]
    cases hr : f.data.reverse with
    | nil => exact absurd (by simpa using congrArg List.reverse hr) h1
    | cons c t =>
      have hcl : c ∈ f.data := by
        rw [← List.mem_reverse, hr]; exact List.mem_cons_self c t
      have hc : (c == '/') = false := by
        simp only [beq_eq_false_iff_ne, ne_eq]
        exact fun he => h2 (he ▸ hcl)
      have hall : ∀ x ∈ c :: t, (x != '/') = true := by
        intro x hx
        have hxl : x ∈ f.data := by rw [← List.mem_reverse, hr]; exact hx
        simp only [bne_iff_ne, ne_eq]
        exact fun he => h2 (he ▸ hxl)
      rw [List.cons_append, List.dropWhile_cons, hc]
      simp only [Bool.false_eq_true, if_false]
      rw [← List.cons_append, takeWhile_append_all (c :: t) _ hall]
      have htw : (['/'] ++ d.data.reverse).takeWhile (fun c => c != '/') = [] := by
        simp [List.takeWhile_cons]
      rw [htw, List.append_nil, ← hr, List.reverse_reverse]
  have hbf : basename f = String.mk f.data := basename_no_slash f.data h2
  unfold normalizeFileName
  rw [hb, hbf]

/-! ### C5 — filename normalization -/

/-- C5 (counterexample): `replace(/\s/g, '-')` replaces each single
whitespace character with one hyphen, so the double space yields a double
hyphen, not the single hyphen the claim requires. -/
theorem normalizeFileName_run_counterexample :
    normalizeFileName "My Installer  v1.dmg" = "My-Installer--v1.dmg"
    ∧ normalizeFileName "My Installer  v1.dmg" ≠ "My-Installer-v1.dmg" := by
  decide

/-- C5 (amended): normalization strips directory components and replaces
every single whitespace character with one hyphen (a run of n whitespace
characters becomes n hyphens): the example normalizes to
`"My-Installer--v1.dmg"`; the function is idempotent and its output
contains no whitespace and no separators. -/
theorem normalizeFileName_props :
    normalizeFileName "My Installer  v1.dmg" = "My-Installer--v1.dmg"
    ∧ (∀ f : String, normalizeFileName (normalizeFileName f) = normalizeFileName f)
    ∧ (∀ f : String, ∀ c ∈ (normalizeFileName f).data, isJsSpace c = false ∧ c ≠ '/')
    ∧ (∀ d f : String, f.data ≠ [] → '/' ∉ f.data →
        normalizeFileName (d ++ "/" ++ f) = normalizeFileName f) :=
  ⟨by decide, normalizeFileName_idem,
   fun f c h => normalizeFileName_chars f c h, normalizeFileName_dir⟩

/-- C5 (witness): idempotence, output characters and directory stripping
at concrete file names. -/
theorem normalizeFileName_props_witness :
    normalizeFileName (normalizeFileName "a b.zip") = normalizeFileName "a b.zip"
    ∧ (isJsSpace '-' = false ∧ '-' ≠ '/')
    ∧ normalizeFileName ("dir" ++ "/" ++ "My App.exe") = normalizeFileName "My App.exe" :=
  ⟨normalizeFileName_props.2.1 "a b.zip",
   normalizeFileName_props.2.2.1 "a b.zip" '-' (by decide),
   normalizeFileName_props.2.2.2 "dir" "My App.exe" (by decide) (by decide)⟩

/-! ### C6 — manifest fetch fallback -/

/-- C6 (counterexample): when the HTTP request itself errs (network /
DNS failure), `fetchUpdatesJson` rejects instead of resolving `{}` — the
manifest-fetch step CAN fail the pipeline. -/
theorem fetchUpdatesJson_error_counterexample :
    fetchUpdatesJson (fun _ => none) (.fail "Error: connect ECONNREFUSED")
      = .error "Error: connect ECONNREFUSED" := by
  decide

/-- C6 (amended): a non-200 response (absent manifest) and an unparsable
200 body (malformed manifest) both resolve with the empty record `{}`;
only an error of the HTTP request itself rejects. -/
theorem fetchUpdatesJson_fallback (parse : String → Option Manifest)
    (statusCode : Nat) (body e : String) :
    (statusCode ≠ 200 → fetchUpdatesJson parse (.resp statusCode body) = .ok [])
    ∧ (parse body = none → fetchUpdatesJson parse (.resp statusCode body) = .ok [])
    ∧ fetchUpdatesJson parse (.fail e) = .error e := by
  refine ⟨?_, ?_, rfl⟩
  · intro h
    simp [fetchUpdatesJson, h]
  · intro h
    by_cases hs : statusCode = 200
    · subst hs
      simp [fetchUpdatesJson, h]
    · simp [fetchUpdatesJson, hs]

/-- C6 (witness): a 404 response, an unparsable 200 body, and a request
error, on concrete values. -/
theorem fetchUpdatesJson_fallback_witness :
    fetchUpdatesJson (fun _ => none) (.resp 404 "Not Found") = .ok []
    ∧ fetchUpdatesJson (fun _ => none) (.resp 200 "not json") = .ok []
    ∧ fetchUpdatesJson (fun _ => none) (.fail "ECONNREFUSED") = .error "ECONNREFUSED" :=
  ⟨(fetchUpdatesJson_fallback (fun _ => none) 404 "Not Found" "ECONNREFUSED").1
      (by decide),
   (fetchUpdatesJson_fallback (fun _ => none) 200 "not json" "ECONNREFUSED").2.1 rfl,
   (fetchUpdatesJson_fallback (fun _ => none) 200 "" "ECONNREFUSED").2.2⟩

/-! ### C7 — the win32 `/RELEASES` strip -/

theorem replaceFirstL_of_first (pat : List Char) :
    ∀ (a b : List Char),
      (∀ i < a.length, pat.isPrefixOf ((a ++ (pat ++ b)).drop i) = false) →
      replaceFirstL pat (a ++ (pat ++ b)) = a ++ b := by
  intro a
  induction a with
  | nil =>
    intro b _
    simp only [List.nil_append]
    cases hp : pat with
    | nil =>
      cases b with
      | nil => rfl
      | cons c r => simp [replaceFirstL, List.isPrefixOf]
    | cons pc pr =>
      have hpre : (pc :: pr).isPrefixOf ((pc :: pr) ++ b) = true := by
        simp [List.isPrefixOf_iff_prefix]
      rw [show (pc :: pr) ++ b = pc :: (pr ++ b) from rfl]
      rw [replaceFirstL]
      rw [show pc :: (pr ++ b) = (pc :: pr) ++ b from rfl]
      simp [hpre, List.drop_left]
  | cons c a' ih =>
    intro b hfirst
    have h0 : pat.isPrefixOf (c :: (a' ++ (pat ++ b))) = false := by
      have := hfirst 0 (by simp)
      simpa using this
    rw [show (c :: a') ++ (pat ++ b) = c :: (a' ++ (pat ++ b)) from rfl]
    rw [replaceFirstL, h0]
    simp only [Bool.false_eq_true, if_false, List.cons_append]
    rw [ih b (fun i hi => by
      have := hfirst (i + 1) (by simpa using Nat.succ_lt_succ hi)
      simpa using this)]

/-- JS `replace(pat, '')` removes exactly the trailing occurrence when no
occurrence starts earlier in the string. -/
theorem jsReplaceOnce_strip (a pat : String)
    (hfirst : ∀ i < a.data.length,
      pat.data.isPrefixOf ((a ++ pat).data.drop i) = false) :
    jsReplaceOnce (a ++ pat) pat = a := by
  unfold jsReplaceOnce
  rw [String.data_append]
  have h := replaceFirstL_of_first pat.data a.data [] (by
    intro i hi
    have := hfirst i hi
    rw [String.data_append] at this
    simpa using this)
  simp only [List.append_nil] at h
  rw [h]

/-- C7 (counterexample): `assets.metaFile.replace('/RELEASES', '')`
removes the FIRST occurrence of `/RELEASES`, not the trailing suffix: a
URL containing the substring earlier loses the early occurrence and keeps
the trailing one. -/
theorem win32_replace_counterexample :
    makePublishData [] ⟨"win32", "x64", "prod", "1.0.0", []⟩
        ⟨none, none, some "http://h/RELEASES/x/RELEASES", none, none,
          some "bid/RELEASES"⟩
      = Except.ok ⟨some "http://h/x/RELEASES", some "bid", none, none, "1.0.0", []⟩
    ∧ (some "http://h/x/RELEASES" : Option String) ≠ some "http://h/RELEASES/x" := by
  decide

/-- C7 (amended): for a win32 build, the update and update-local fields
are the metaFile URL (resp. its local mirror path) with the FIRST
occurrence of `/RELEASES` removed; when no occurrence starts before a
trailing `/RELEASES` suffix (as with URLs of the standard file-URL
scheme), this is exactly the trailing suffix stripped and the rest of the
URL preserved. -/
theorem win32_update_strip (fields : List (String × String)) (build : Build)
    (assets : AssetsResult) (a b : String)
    (hplat : build.platform = "win32")
    (hmf : assets.metaFile = some (a ++ "/RELEASES"))
    (hlmf : assets.localMetaFile = some (b ++ "/RELEASES"))
    (hfa : ∀ i < a.data.length,
      ("/RELEASES" : String).data.isPrefixOf ((a ++ "/RELEASES").data.drop i) = false)
    (hfb : ∀ i < b.data.length,
      ("/RELEASES" : String).data.isPrefixOf ((b ++ "/RELEASES").data.drop i) = false) :
    makePublishData fields build assets
      = Except.ok ⟨some a, some b, assets.install, assets.localInstall,
          build.version, fields⟩ := by
  simp [makePublishData, hplat, hmf, hlmf,
    jsReplaceOnce_strip a "/RELEASES" hfa, jsReplaceOnce_strip b "/RELEASES" hfb]

/-- C7 (witness): a concrete win32 build whose metaFile URL ends in
`/RELEASES` with no earlier occurrence. -/
theorem win32_update_strip_witness :
    makePublishData [] ⟨"win32", "x64", "prod", "1.0.0", []⟩
        ⟨none, none, some "http://h/w/RELEASES", none, none,
          some "win32-x64-prod-v1.0.0/RELEASES"⟩
      = Except.ok ⟨some "http://h/w", some "win32-x64-prod-v1.0.0", none, none,
          "1.0.0", []⟩ :=
  win32_update_strip [] ⟨"win32", "x64", "prod", "1.0.0", []⟩
    ⟨none, none, some "http://h/w/RELEASES", none, none,
      some "win32-x64-prod-v1.0.0/RELEASES"⟩
    "http://h/w" "win32-x64-prod-v1.0.0" rfl (by decide) (by decide)
    (by decide) (by decide)

/-! ### C9 — progress handler at `total === 0` -/

/-- C9: `formatSize(0)` is indeed `"0 B"`, but the progress handler does
NOT treat `total === 0` as a degenerate case: `transferred/total` is
`NaN` (or `Infinity`), and `new Array(Math.floor(50 * value))` throws
`RangeError: Invalid array length` before anything is rendered. -/
theorem progress_zero_total_bug :
    formatSize 0 = "0 B"
    ∧ onProgress ⟨"installer.exe", 0, 0⟩ = .error "RangeError: Invalid array length"
    ∧ onProgress ⟨"installer.exe", 512, 0⟩
      = .error "RangeError: Invalid array length" := by
  decide

/-! ### C10 — version prefix stripping and remove validation -/

theorem fieldDefault_truthy (s : String) (o : Option String) (h : s ≠ "") :
    fieldDefault (some s) o = some s := by
  simp [fieldDefault, jsTruthyOpt, h]

theorem vStrip_of_v {s : String} {rest : List Char} (hd : s.data = 'v' :: rest) :
    vStrip (some s) = some (String.mk rest) := by
  simp [vStrip, hd]

theorem vStrip_of_ne {s : String} {c : Char} {rest : List Char}
    (hd : s.data = c :: rest) (hc : c ≠ 'v') : vStrip (some s) = some s := by
  simp only [vStrip, hd]
  split
  · next rest' heq =>
    cases heq
    exact absurd rfl hc
  · rfl

/-- C10 (counterexample): only ONE leading `'v'` is stripped: the version
`"vv1.2.3"` normalizes to `"v1.2.3"`, which still begins with the
version-prefix character. -/
theorem normalizeBuild_vv_counterexample :
    normalizeBuild (.obj ⟨some "win32", some "x64", some "prod", some "vv1.2.3"⟩)
        ⟨"publish", none, none, none, none⟩
      = .ok ⟨some "win32", some "x64", some "prod", some "v1.2.3"⟩
    ∧ strStarts "v1.2.3" "v" = true := by
  decide

/-- C10 (amended): `normalizeBuild` strips exactly one leading `'v'` from
a truthy version, so the result never begins with `'v'` UNLESS the input
version began with `"vv"`; and for the remove command every build that
passes validation has a truthy version containing a
digits.digits.digits match. -/
theorem version_prefix_and_remove_validation :
    (∀ (b : RawBuild) (opts : NOptions) (out : RawBuild) (s : String),
      b.version = some s → s ≠ "" → strStarts s "vv" = false →
      normalizeBuild (.obj b) opts = .ok out →
      ∀ t, out.version = some t → strStarts t "v" = false)
    ∧ (∀ builds : List RawBuild,
      validateIfRemoveCommand "remove" builds = .ok () →
      ∀ b ∈ builds, ∃ v, b.version = some v ∧ v ≠ "" ∧ semverSearch v = true) := by
  constructor
  · intro b opts out s hv hs hvv hok t hout
    have hbv : (if opts.command == "remove" then b
        else applyBuildDefaults b opts).version = some s := by
      by_cases hc : opts.command == "remove"
      · simp [hc, hv]
      · simp [hc, applyBuildDefaults, hv, fieldDefault_truthy s opts.version hs]
    simp only [normalizeBuild] at hok
    rw [hbv] at hok
    cases hd : s.data with
    | nil =>
      have hse : s = "" := by
        rw [← show String.mk s.data = s from rfl, hd]
      exact absurd hse hs
    | cons c rest =>
      by_cases hcv : c = 'v'
      · subst hcv
        rw [vStrip_of_v hd] at hok
        split at hok
        · cases hok
        · have hbeq := Except.ok.inj hok
          rw [← hbeq] at hout
          have ht : t = String.mk rest := by
            simpa using hout.symm
          subst ht
          have hvvs : strStarts s "vv" = strStarts (String.mk rest) "v" := by
            simp [strStarts, hd, List.isPrefixOf]
          rw [← hvvs]
          exact hvv
      · rw [vStrip_of_ne hd hcv] at hok
        split at hok
        · cases hok
        · have hbeq := Except.ok.inj hok
          rw [← hbeq] at hout
          have ht : t = s := by simpa using hout.symm
          subst ht
          simp [strStarts, hd, List.isPrefixOf, Ne.symm hcv]
  · intro builds hval b hb
    simp only [validateIfRemoveCommand, beq_self_eq_true, Bool.not_true,
      Bool.false_eq_true, if_false] at hval
    split at hval
    · cases hval
    · split at hval
      · cases hval
      · next h1 h2 =>
        have hfil : builds.filter buildInvalid = [] := by
          have hft : (builds.filter buildInvalid).isEmpty = true := by
            rcases Bool.eq_false_or_eq_true (builds.filter buildInvalid).isEmpty
              with hx | hx
            · exact hx
            · exact absurd (by simp [hx]) h2
          simpa [List.isEmpty_iff] using hft
        have hbi : buildInvalid b = false :=
          Bool.eq_false_iff.mpr (List.filter_eq_nil_iff.mp hfil b hb)
        unfold buildInvalid at hbi
        split at hbi
        · cases hbi
        · next hcond =>
          have hx : (hasWordChar (b.platform.getD "") && hasWordChar (b.arch.getD "")
              && hasWordChar (b.channel.getD "")
              && semverSearch (b.version.getD "")) = true := by
            simpa using hbi
          have hcondf : (!jsTruthyOpt b.platform || !jsTruthyOpt b.arch
              || !jsTruthyOpt b.channel || !jsTruthyOpt b.version) = false :=
            Bool.eq_false_iff.mpr hcond
          have hver : jsTruthyOpt b.version = true := by
            simp only [Bool.or_eq_false_iff, Bool.not_eq_false'] at hcondf
            exact hcondf.2
          cases hv : b.version with
          | none => rw [hv] at hver; simp [jsTruthyOpt] at hver
          | some v =>
            refine ⟨v, rfl, ?_, ?_⟩
            · rw [hv] at hver
              simpa [jsTruthyOpt] using hver
            · rw [hv] at hx
              simp only [Option.getD_some, Bool.and_eq_true] at hx
              exact hx.2

/-- C10 (witness): the single-`'v'` strip on a concrete build and the
remove validation on a concrete singleton build list. -/
theorem version_prefix_and_remove_validation_witness :
    strStarts "1.2.3" "v" = false
    ∧ ∃ v, (some "1.2.3" : Option String) = some v ∧ v ≠ ""
        ∧ semverSearch v = true :=
  ⟨version_prefix_and_remove_validation.1
      ⟨some "w", some "a", some "c", some "v1.2.3"⟩
      ⟨"publish", none, none, none, none⟩
      ⟨some "w", some "a", some "c", some "1.2.3"⟩
      "v1.2.3" rfl (by decide) (by decide) (by decide) "1.2.3" rfl,
   version_prefix_and_remove_validation.2
      [⟨some "w", some "a", some "c", some "1.2.3"⟩] (by decide)
      ⟨some "w", some "a", some "c", some "1.2.3"⟩ (by decide)⟩

end SimplePublisher
